import Mathlib

/-!
Verification development for the mpc-rs protocol cores (BRNG, OPEN, RNG/RZG,
MULOPEN, INV, RKPG).

The scalar/group layer is an external collaborator of the crate (secp256k1):
the curve group is cyclic of prime order q, so we model a scalar as an element
of `ZMod qOrder` and a curve point `Gej` by its discrete logarithm with respect
to the base point `g` (also an element of `ZMod qOrder`, with `g` itself
represented by `1`).  Group addition of points is addition of logarithms and
`scalar_mul` is multiplication; the Pedersen commitment
`ped(h, v, r) = g^v * h^r` becomes `v + r * h`.

Functions of the external `shamir` crate (verifiable secret sharing) are
modelled from their specified interfaces; functions of the crate itself are
translated from the source.  Rust panics (slice indexing, `unwrap`, `assert!`,
`expect`) are modelled by returning `none` from an `Option`-valued embedding.
-/

namespace MpcRs

/-- Decidable equality for `Except`, used to evaluate handler results on
concrete inputs. -/
instance {ε α : Type _} [DecidableEq ε] [DecidableEq α] :
    DecidableEq (Except ε α)
  | .ok a, .ok b =>
    if h : a = b then isTrue (by rw [h])
    else isFalse (by intro hh; cases hh; exact h rfl)
  | .ok _, .error _ => isFalse (by intro h; cases h)
  | .error _, .ok _ => isFalse (by intro h; cases h)
  | .error e, .error f =>
    if h : e = f then isTrue (by rw [h])
    else isFalse (by intro hh; cases hh; exact h rfl)

/-- Order of the secp256k1 scalar field (external curve layer). -/
def qOrder : ℕ :=
  115792089237316195423570985008687907852837564279074904382605163141518161494337

/-- An element of the prime-order scalar field of the curve (external layer). -/
abbrev Scalar : Type := ZMod qOrder

/-- A point of the prime-order curve group, modelled by its discrete logarithm
with respect to the base point. -/
abbrev Gej : Type := ZMod qOrder

/-- The group identity `Gej::infinity()`. -/
def gejInfinity : Gej := 0

/-- Function `Gej::scalar_mul(p, s)`: the scalar multiple of a point, in the
discrete-logarithm model multiplication in `ZMod qOrder`. -/
def scalarMul (p : Gej) (s : Scalar) : Gej := s * p

/-- External (shamir crate): the Pedersen commitment
`ped(h, v, r) = g^v * h^r`, in the discrete-logarithm model `v + r * h`. -/
def ped_commit (h : Gej) (v r : Scalar) : Gej := v + r * h

/-- Type `Share`: a pair of an evaluation index and the value of the sharing
polynomial there (external shamir crate data model). -/
structure Share where
  index : Scalar
  value : Scalar
deriving DecidableEq

/-- Type `VShare`: a verifiable share, a `Share` with its Pedersen decommitment. -/
structure VShare where
  share : Share
  decommitment : Scalar
deriving DecidableEq

/-- Type `SharingCommitment`: an ordered vector of group elements, the coefficient
commitments of a sharing polynomial. -/
abbrev SharingCommitment : Type := List Gej

/-- Type `Parameters`: the per-party context (global index list, own index, and the
Pedersen second generator). -/
structure Parameters where
  indices : List Scalar
  index : Scalar
  h : Gej

/-- External (shamir crate): Horner evaluation of a commitment vector in the
exponent at a scalar, `C(x) = sum_i C_i * x^i`. -/
def poly_eval_gej_slice_in_exponent (com : SharingCommitment) (x : Scalar) : Gej :=
  com.foldr (fun c acc => c + scalarMul acc x) gejInfinity

/-- External (shamir crate): `vshare_is_valid` checks that the Pedersen
commitment of the share's value and decommitment equals the commitment vector
evaluated in the exponent at the share's index. -/
def vshare_is_valid (v : VShare) (com : SharingCommitment) (h : Gej) : Bool :=
  decide (ped_commit h v.share.value v.decommitment
    = poly_eval_gej_slice_in_exponent com v.share.index)

/-! ## OPEN (src/open.rs) -/

/-- The error kinds of OPEN (`OpenError` in src/open.rs). -/
inductive OpenError where
  | invalidIndex
  | duplicateIndex
  | invalidShare
  | inconsistentIndices
  | invalidBatchSize
deriving DecidableEq

/-- The result type of OPEN's handler (`OpenResult` in src/open.rs). -/
abbrev OpenResult : Type := Except OpenError (Option (List (Scalar × Scalar)))

/-- OPEN's `State`: one append-only buffer of verified shares per batch slot. -/
structure OpenState where
  vshare_bufs : List (List VShare)
deriving DecidableEq

/-- Constructor `State::new`: one empty buffer per commitment of the instance. -/
def openStateNew (instParams : List SharingCommitment) : OpenState :=
  ⟨instParams.map (fun _ => [])⟩

/-- Function `all_indices_equal_in_vshare_batch` (src/util.rs, duplicated in
src/open.rs): adjacent-pair equality of the share indices of a batch. -/
def all_indices_equal_in_vshare_batch : List VShare → Bool
  | [] => true
  | [_] => true
  | v :: w :: rest =>
    decide (v.share.index = w.share.index)
      && all_indices_equal_in_vshare_batch (w :: rest)

/-- Method `State::accept_vshare_batch`: push each slot's share onto its buffer. -/
def accept_vshare_batch (st : OpenState) (batch : List VShare) : OpenState :=
  ⟨List.zipWith (fun buf v => buf ++ [v]) st.vshare_bufs batch⟩

/-- Method `State::reconstruct_values`, with the external interpolation routine
`vss::interpolate_shares_at_zero` passed as the argument `interp`. -/
def reconstruct_values (interp : List VShare → Scalar × Scalar)
    (st : OpenState) : List (Scalar × Scalar) :=
  st.vshare_bufs.map interp

/-- Function `handle_vshare_batch` (src/open.rs): the OPEN message handler, translated
from the source.  The external Shamir interpolation is the argument `interp`;
a Rust panic (out-of-bounds indexing) is modelled by the result `none`. -/
def handle_vshare_batch (interp : List VShare → Scalar × Scalar)
    (state : OpenState) (instParams : List SharingCommitment)
    (params : Parameters) (vshare_batch : List VShare) :
    Option (OpenState × OpenResult) :=
  let b := state.vshare_bufs.length
  if vshare_batch.length ≠ b then some (state, .error .invalidBatchSize)
  else if ¬ all_indices_equal_in_vshare_batch vshare_batch then
    some (state, .error .inconsistentIndices)
  else
    match vshare_batch with
    | [] => none
    | v0 :: _ =>
      let index := v0.share.index
      if index ∉ params.indices then some (state, .error .invalidIndex)
      else
        match state.vshare_bufs with
        | [] => none
        | buf0 :: _ =>
          if buf0.any (fun vs => decide (vs.share.index = index)) then
            some (state, .error .duplicateIndex)
          else if ¬ ((vshare_batch.zip instParams).all
              (fun p => vshare_is_valid p.1 p.2 params.h)) then
            some (state, .error .invalidShare)
          else
            match instParams with
            | [] => none
            | com0 :: _ =>
              if buf0.length = com0.length then some (state, .ok none)
              else
                let state' := accept_vshare_batch state vshare_batch
                match state'.vshare_bufs with
                | [] => none
                | buf0' :: _ =>
                  if buf0'.length = com0.length then
                    some (state', .ok (some (reconstruct_values interp state')))
                  else some (state', .ok none)

/-! ## MULOPEN NIZK (src/mulopen/zkp.rs) -/

/-- The prover's commitment step of the sigma-protocol
(`Message` in src/mulopen/zkp.rs). -/
structure ZkpMessage where
  m : Gej
  m1 : Gej
  m2 : Gej
deriving DecidableEq

/-- The prover's nonces (`Nonce` in src/mulopen/zkp.rs); sampled from the
thread RNG in the source, here an explicit argument. -/
structure Nonce where
  d : Scalar
  s : Scalar
  x : Scalar
  s1 : Scalar
  s2 : Scalar

/-- The prover's response (`Response` in src/mulopen/zkp.rs). -/
structure Response where
  y : Scalar
  w : Scalar
  z : Scalar
  w1 : Scalar
  w2 : Scalar
deriving DecidableEq

/-- The prover's witness (`Witness` in src/mulopen/zkp.rs). -/
structure Witness where
  alpha : Scalar
  beta : Scalar
  rho : Scalar
  sigma : Scalar
  tau : Scalar

/-- The deterministic part of `message_and_nonce` (src/mulopen/zkp.rs):
`m = ped(h, d, s)`, `m1 = ped(h, x, s1)`, `m2 = b^x * h^(s2)`. -/
def message_of_nonce (nonce : Nonce) (b h : Gej) : ZkpMessage :=
  { m := ped_commit h nonce.d nonce.s
    m1 := ped_commit h nonce.x nonce.s1
    m2 := scalarMul b nonce.x + scalarMul h nonce.s2 }

/-- Function `response_for_challenge` (src/mulopen/zkp.rs). -/
def response_for_challenge (e : Scalar) (nonce : Nonce) (wit : Witness) :
    Response :=
  { y := nonce.d + e * wit.beta
    w := nonce.s + e * wit.sigma
    z := nonce.x + e * wit.alpha
    w1 := nonce.s1 + e * wit.rho
    w2 := nonce.s2 + e * (wit.tau - wit.sigma * wit.alpha) }

/-- Function `verify_response` (src/mulopen/zkp.rs): the three verification equations,
checked in sequence with early exit. -/
def verify_response (msg : ZkpMessage) (e : Scalar) (resp : Response)
    (h a b c : Gej) : Bool :=
  if ped_commit h resp.y resp.w ≠ scalarMul b e + msg.m then false
  else if ped_commit h resp.z resp.w1 ≠ scalarMul a e + msg.m1 then false
  else decide (scalarMul b resp.z + scalarMul h resp.w2
    = scalarMul c e + msg.m2)

/-- The type of the Fiat-Shamir challenge derivation `compute_challenge`
(src/mulopen/mod.rs), abstracted over its SHA-256 internals: a function of the
prover message and the three public commitments. -/
abbrev ChallengeFun : Type := ZkpMessage → Gej → Gej → Gej → Scalar

/-- A proof (`Proof` in src/mulopen/mod.rs). -/
structure Proof where
  message : ZkpMessage
  response : Response
deriving DecidableEq

/-- Function `prove` (src/mulopen/mod.rs), with the nonce sampling and the challenge
hash as explicit arguments. -/
def prove (challengeOf : ChallengeFun) (nonce : Nonce) (wit : Witness)
    (a b c h : Gej) : Proof :=
  let message := message_of_nonce nonce b h
  let challenge := challengeOf message a b c
  { message := message, response := response_for_challenge challenge nonce wit }

/-- Function `verify` (src/mulopen/mod.rs): recompute the challenge from the proof's
message and the public commitments, then check the response. -/
def verify (challengeOf : ChallengeFun) (proof : Proof) (a b c h : Gej) :
    Bool :=
  verify_response proof.message (challengeOf proof.message a b c)
    proof.response h a b c

/-! ## MULOPEN handler (src/mulopen/mod.rs) -/

/-- The error kinds of MULOPEN (`MulOpenErr` in src/mulopen/mod.rs). -/
inductive MulOpenErr where
  | inconsistentShares
  | invalidShares
  | invalidZKP
deriving DecidableEq

/-- A MULOPEN message (`Message` in src/mulopen/mod.rs). -/
structure MulOpenMessage where
  vshare : VShare
  commitment : Gej
  proof : Proof
deriving DecidableEq

/-- Function `handle_message_batch` (src/mulopen/mod.rs), translated from the source.
The challenge hash and the external `sss::interpolate_shares_at_zero` are the
arguments `challengeOf` and `interp`; `assert!` failures and other panics are
modelled by the result `none`. -/
def handle_message_batch (challengeOf : ChallengeFun)
    (interp : List Share → Scalar) (state : List (List Share))
    (message_batch : List MulOpenMessage)
    (a_coms b_coms z_coms : List SharingCommitment) (h : Gej) :
    Option (List (List Share) × Except MulOpenErr (Option (List Scalar))) :=
  let b := message_batch.length
  if b = 0 then none
  else if a_coms.length ≠ b then none
  else if b_coms.length ≠ b then none
  else if z_coms.length ≠ b then none
  else if state.length ≠ b then none
  else
    match a_coms with
    | [] => none
    | ac0 :: _ =>
      let k := ac0.length
      if ¬ (a_coms.all (fun com => decide (com.length = k))) then none
      else if ¬ (b_coms.all (fun com => decide (com.length = k))) then none
      else if ¬ (z_coms.all (fun com => decide (com.length = k))) then none
      else
        match message_batch with
        | [] => none
        | msg0 :: _ =>
          let index := msg0.vshare.share.index
          if message_batch.any
              (fun msg => decide (msg.vshare.share.index ≠ index)) then
            some (state, .error .inconsistentShares)
          else if ¬ ((message_batch.zip z_coms).all (fun p =>
              decide (ped_commit h p.1.vshare.share.value p.1.vshare.decommitment
                = poly_eval_gej_slice_in_exponent p.2 index + p.1.commitment))) then
            some (state, .error .invalidShares)
          else if ¬ ((message_batch.zip (a_coms.zip b_coms)).all (fun p =>
              verify challengeOf p.1.proof
                (poly_eval_gej_slice_in_exponent p.2.1 index)
                (poly_eval_gej_slice_in_exponent p.2.2 index)
                p.1.commitment h)) then
            some (state, .error .invalidZKP)
          else
            let state' := List.zipWith
              (fun buf msg => buf ++ [msg.vshare.share]) state message_batch
            let threshold := 2 * k - 1
            match state' with
            | [] => none
            | buf0' :: _ =>
              if buf0'.length = threshold then
                some (state', .ok (some (state'.map interp)))
              else some (state', .ok none)

/-! ## RKPG (src/rkpg.rs) -/

/-- The error kinds of RKPG (`RKPGError` in src/rkpg.rs). -/
inductive RKPGError where
  | indexOutOfRange
  | emptyBatch
  | inconsistentShareIndices
  | incorrectBatchSize
deriving DecidableEq

/-- RKPG's `State`: the global index list, one length-`n` buffer per batch
slot pre-filled with `(index, 0)` placeholders, and the counter of accepted
batches. -/
structure RKPGState where
  indices : List Scalar
  bufs : List (List Share)
  count : ℕ
deriving DecidableEq

/-- RKPG `State::new`. -/
def rkpgStateNew (indices : List Scalar) (b : ℕ) : RKPGState :=
  { indices := indices
    bufs := List.replicate b (indices.map (fun i => ⟨i, 0⟩))
    count := 0 }

/-- RKPG `State::insert_batch` (src/rkpg.rs): on success (`some (.ok _)`) the
batch overwrites position `i` of every buffer and the counter advances by one;
errors leave the state unreturned (the Rust `&mut self` is untouched); a panic
(`buf[i]` out of bounds) is `none`. -/
def insert_batch (st : RKPGState) (batch : List Share) :
    Option (Except RKPGError RKPGState) :=
  if batch.length ≠ st.bufs.length then some (.error .incorrectBatchSize)
  else
    match batch with
    | [] => some (.error .emptyBatch)
    | s0 :: rest =>
      let shareIndex := s0.index
      if ¬ (rest.all (fun s => decide (s.index = shareIndex))) then
        some (.error .inconsistentShareIndices)
      else
        match st.indices.findIdx? (fun idx => decide (idx = shareIndex)) with
        | none => some (.error .indexOutOfRange)
        | some i =>
          if st.bufs.all (fun buf => decide (i < buf.length)) then
            some (.ok { indices := st.indices
                        bufs := List.zipWith (fun sh buf => buf.set i sh)
                          batch st.bufs
                        count := st.count + 1 })
          else none

/-- Function `handle_share_batch` (src/rkpg.rs), translated from the source.  The
external Reed-Solomon decoder `rs::decode_with_precompute` (together with its
precompute) is the argument `decode`; the `expect("TODO")` on decode failure
and slice-indexing panics are modelled by `none`. -/
def handle_share_batch (decode : List Share → ℕ → Option (List Scalar))
    (st : RKPGState) (share_batch : List Share)
    (commitments : List SharingCommitment) (h : Gej) :
    Option (RKPGState × Except RKPGError (Option (List Gej))) :=
  if share_batch.length ≠ commitments.length then
    some (st, .error .incorrectBatchSize)
  else
    match insert_batch st share_batch with
    | none => none
    | some (.error e) => some (st, .error e)
    | some (.ok st') =>
      let n := st'.indices.length
      match commitments with
      | [] => some (st', .error .emptyBatch)
      | com0 :: _ =>
        let k := com0.length
        if st'.count < n - k + 1 then some (st', .ok none)
        else
          match (st'.bufs.zip commitments).mapM (fun p =>
              (decode p.1 k).bind (fun poly =>
                poly.head?.bind (fun p0 =>
                  p.2.head?.map (fun c0 => scalarMul h (-p0) + c0)))) with
          | none => none
          | some pks => some (st', .ok (some pks))

/-! ## BRNG (src/brng.rs) -/

/-- The error kinds of BRNG (`BRNGError` in src/brng.rs). -/
inductive BRNGError where
  | wrongNumberOfContributions
  | invalidCommitments
  | wrongIndex
  | invalidShare
deriving DecidableEq

/-- The first loop of `is_valid` (src/brng.rs): per slot, in batch order,
check the number of contributions, then the commitment lengths, then the
share indices, with early exit. -/
def brng_structural_check (k : ℕ) (params : Parameters) :
    List (List (VShare × SharingCommitment)) → Except BRNGError Unit
  | [] => .ok ()
  | slot :: rest =>
    if slot.length ≠ k then .error .wrongNumberOfContributions
    else if ¬ (slot.all (fun p => decide (p.2.length = k))) then
      .error .invalidCommitments
    else if ¬ (slot.all (fun p => decide (p.1.share.index = params.index))) then
      .error .wrongIndex
    else brng_structural_check k params rest

/-- The second loop of `is_valid` (src/brng.rs): per slot, in batch order,
check every pair with `vshare_is_valid`, with early exit. -/
def brng_share_check (params : Parameters) :
    List (List (VShare × SharingCommitment)) → Except BRNGError Unit
  | [] => .ok ()
  | slot :: rest =>
    if ¬ (slot.all (fun p => vshare_is_valid p.1 p.2 params.h)) then
      .error .invalidShare
    else brng_share_check params rest

/-- Function `is_valid` (src/brng.rs): the structural loop over the whole batch,
then the cryptographic loop over the whole batch. -/
def brng_is_valid (k : ℕ) (params : Parameters)
    (batch : List (List (VShare × SharingCommitment))) :
    Except BRNGError Unit :=
  match brng_structural_check k params batch with
  | .error e => .error e
  | .ok _ => brng_share_check params batch

/-- External (shamir crate): `VShare::add_assign_mut`, modelled from the spec
interface as componentwise addition of value and decommitment (the index of
the left operand is kept). -/
def vshare_add (a b : VShare) : VShare :=
  ⟨⟨a.share.index, a.share.value + b.share.value⟩,
    a.decommitment + b.decommitment⟩

/-- External (shamir crate): `SharingCommitment::add_assign_mut`, modelled
from the spec interface as componentwise group addition. -/
def commitment_add (a b : SharingCommitment) : SharingCommitment :=
  List.zipWith (· + ·) a b

/-- Function `sum_sharing` (src/brng.rs): fold the additions over a slot's pairs,
starting from the first pair; the `unwrap` on an empty slot is `none`. -/
def sum_sharing (slot : List (VShare × SharingCommitment)) :
    Option (VShare × SharingCommitment) :=
  match slot with
  | [] => none
  | p0 :: rest =>
    some (rest.foldl
      (fun acc p => (vshare_add acc.1 p.1, commitment_add acc.2 p.2)) p0)

/-- Function `output_sharing_batch` (src/brng.rs): map `sum_sharing` over the batch
and unzip. -/
def output_sharing_batch (batch : List (List (VShare × SharingCommitment))) :
    Option (List VShare × List SharingCommitment) :=
  (batch.mapM sum_sharing).map List.unzip

/-! ## RNG / RZG output commitments (src/rng.rs) -/

/-- Function `output_commitment_rzg` (src/rng.rs): push `Gej::infinity()`, then the
constant term of each coefficient commitment in order; the `coeff_commitment[0]`
panic on an empty input commitment is `none`. -/
def output_commitment_rzg (coeffComs : List SharingCommitment) :
    Option SharingCommitment :=
  (coeffComs.mapM List.head?).map (fun heads => gejInfinity :: heads)

/-- Function `output_commitment_batch_rzg` (src/rng.rs): `output_commitment_rzg` for
every batch slot. -/
def output_commitment_batch_rzg (batch : List (List SharingCommitment)) :
    Option (List SharingCommitment) :=
  batch.mapM output_commitment_rzg

/-! ## Fiat-Shamir challenge bytes (src/mulopen/mod.rs, src/mulopen/zkp.rs)

The 33-byte compressed point encoding `Gej::put_bytes` and SHA-256 belong to
the external curve and hash layers; they enter as the arguments `enc`, `sha`
and `setB32` below. -/

/-- Writing `src` into a byte buffer starting at offset `off`, the effect of
`put_bytes` on a subslice `&mut bs[off..]`. -/
def writeAt (buf : List UInt8) (off : ℕ) (src : List UInt8) : List UInt8 :=
  buf.take off ++ src ++ buf.drop (off + src.length)

/-- Method `Message::put_bytes` (src/mulopen/zkp.rs): write `m`, `m1`, `m2` at
relative offsets 0, 33, 66 of the given subslice. -/
def message_put_bytes (enc : Gej → List UInt8) (msg : ZkpMessage)
    (buf : List UInt8) (off : ℕ) : List UInt8 :=
  writeAt (writeAt (writeAt buf off (enc msg.m)) (off + 33) (enc msg.m1))
    (off + 66) (enc msg.m2)

/-- The 198-byte buffer built by `compute_challenge` (src/mulopen/mod.rs):
a zero-initialized buffer with `a`, `b`, `c` written at offsets 0, 33, 66 and
the proof message written via `Message::put_bytes` at offset 99. -/
def compute_challenge_bytes (enc : Gej → List UInt8) (msg : ZkpMessage)
    (a b c : Gej) : List UInt8 :=
  message_put_bytes enc msg
    (writeAt (writeAt (writeAt (List.replicate 198 0) 0 (enc a)) 33 (enc b))
      66 (enc c)) 99

/-- Function `compute_challenge` (src/mulopen/mod.rs): SHA-256 over the 198-byte
buffer, reduced to a scalar with `Scalar::set_b32`. -/
def compute_challenge (sha : List UInt8 → List UInt8)
    (setB32 : List UInt8 → Scalar) (enc : Gej → List UInt8)
    (msg : ZkpMessage) (a b c : Gej) : Scalar :=
  setB32 (sha (compute_challenge_bytes enc msg a b c))

/-! ## Theorems -/

/-- C5: for every witness `(alpha, beta, rho, sigma, tau)` and generator `h`,
with `a = ped(h, alpha, rho)`, `b = ped(h, beta, sigma)`,
`c = ped(h, alpha * beta, tau)`, `verify(prove(witness, a, b, c, h), a, b, c, h)`
returns `true` for every choice of the prover's nonces and for every
Fiat-Shamir challenge function: all three verification equations hold for the
honest responses. -/
theorem c5_nizk_completeness (challengeOf : ChallengeFun) (nonce : Nonce)
    (alpha beta rho sigma tau : Scalar) (h : Gej) :
    verify challengeOf
      (prove challengeOf nonce ⟨alpha, beta, rho, sigma, tau⟩
        (ped_commit h alpha rho) (ped_commit h beta sigma)
        (ped_commit h (alpha * beta) tau) h)
      (ped_commit h alpha rho) (ped_commit h beta sigma)
      (ped_commit h (alpha * beta) tau) h = true := by
  unfold verify prove verify_response message_of_nonce response_for_challenge
  dsimp only
  split_ifs with h1 h2
  · exact absurd (by unfold ped_commit scalarMul; ring) h1
  · exact absurd (by unfold ped_commit scalarMul; ring) h2
  · simp only [decide_eq_true_eq]
    unfold ped_commit scalarMul
    ring

/-- Writing at the end of a known prefix shifts the write into the tail. -/
theorem writeAt_after_block (xs src rest : List UInt8) :
    writeAt (xs ++ rest) xs.length src
      = xs ++ (src ++ rest.drop src.length) := by
  unfold writeAt
  rw [List.take_left, List.drop_append, List.append_assoc]

/-- Taking the first 33 bytes of a block of length 33 followed by a tail. -/
theorem take33_of_append (x t : List UInt8) (hx : x.length = 33) :
    (x ++ t).take 33 = x := by
  rw [← hx]; exact List.take_left x t

/-- Dropping the first 33 bytes of a block of length 33 followed by a tail. -/
theorem drop33_of_append (x t : List UInt8) (hx : x.length = 33) :
    (x ++ t).drop 33 = t := by
  rw [← hx]; exact List.drop_left x t

/-- The six successive writes of `compute_challenge` produce the plain
concatenation of the six 33-byte blocks. -/
theorem buffer_decomposition (a b c m m1 m2 : List UInt8)
    (ha : a.length = 33) (hb : b.length = 33) (hc : c.length = 33)
    (hm : m.length = 33) (hm1 : m1.length = 33) (hm2 : m2.length = 33) :
    writeAt (writeAt (writeAt (writeAt (writeAt
        (writeAt (List.replicate 198 0) 0 a) 33 b) 66 c) 99 m) 132 m1) 165 m2
      = a ++ b ++ c ++ m ++ m1 ++ m2 := by
  have h1 : writeAt (List.replicate 198 0) 0 a
      = a ++ List.replicate 165 0 := by
    unfold writeAt
    rw [ha]
    simp [List.drop_replicate]
  have h2 : writeAt (a ++ List.replicate 165 0) 33 b
      = a ++ b ++ List.replicate 132 0 := by
    rw [← ha, writeAt_after_block, hb]
    simp [List.drop_replicate, List.append_assoc]
  have h3 : writeAt (a ++ b ++ List.replicate 132 0) 66 c
      = a ++ b ++ c ++ List.replicate 99 0 := by
    rw [show (66 : ℕ) = (a ++ b).length by simp [ha, hb], writeAt_after_block,
      hc]
    simp [List.drop_replicate, List.append_assoc]
  have h4 : writeAt (a ++ b ++ c ++ List.replicate 99 0) 99 m
      = a ++ b ++ c ++ m ++ List.replicate 66 0 := by
    nth_rewrite 2 [show (99 : ℕ) = (a ++ b ++ c).length by simp [ha, hb, hc]]
    rw [writeAt_after_block, hm]
    simp [List.drop_replicate, List.append_assoc]
  have h5 : writeAt (a ++ b ++ c ++ m ++ List.replicate 66 0) 132 m1
      = a ++ b ++ c ++ m ++ m1 ++ List.replicate 33 0 := by
    rw [show (132 : ℕ) = (a ++ b ++ c ++ m).length by
        simp [ha, hb, hc, hm],
      writeAt_after_block, hm1]
    simp [List.drop_replicate, List.append_assoc]
  have h6 : writeAt (a ++ b ++ c ++ m ++ m1 ++ List.replicate 33 0) 165 m2
      = a ++ b ++ c ++ m ++ m1 ++ m2 := by
    rw [show (165 : ℕ) = (a ++ b ++ c ++ m ++ m1).length by
        simp [ha, hb, hc, hm, hm1],
      writeAt_after_block, hm2]
    simp [List.drop_replicate, List.append_assoc]
  rw [h1, h2, h3, h4, h5, h6]

/-- C8: for all points `a`, `b`, `c` and prover commitment `(m, m1, m2)`, the
Fiat-Shamir challenge is `Scalar::set_b32` of the SHA-256 digest of a 198-byte
buffer holding the 33-byte encodings of `a, b, c, m, m1, m2` at byte offsets
0, 33, 66, 99, 132, 165, in that order. -/
theorem c8_challenge_buffer_layout (sha : List UInt8 → List UInt8)
    (setB32 : List UInt8 → Scalar) (enc : Gej → List UInt8)
    (hEnc : ∀ p, (enc p).length = 33) (msg : ZkpMessage) (a b c : Gej) :
    compute_challenge_bytes enc msg a b c
        = enc a ++ enc b ++ enc c ++ enc msg.m ++ enc msg.m1 ++ enc msg.m2 ∧
      (compute_challenge_bytes enc msg a b c).length = 198 ∧
      ((compute_challenge_bytes enc msg a b c).drop 0).take 33 = enc a ∧
      ((compute_challenge_bytes enc msg a b c).drop 33).take 33 = enc b ∧
      ((compute_challenge_bytes enc msg a b c).drop 66).take 33 = enc c ∧
      ((compute_challenge_bytes enc msg a b c).drop 99).take 33 = enc msg.m ∧
      ((compute_challenge_bytes enc msg a b c).drop 132).take 33
        = enc msg.m1 ∧
      ((compute_challenge_bytes enc msg a b c).drop 165).take 33
        = enc msg.m2 ∧
      compute_challenge sha setB32 enc msg a b c
        = setB32 (sha (enc a ++ enc b ++ enc c ++ enc msg.m ++ enc msg.m1
            ++ enc msg.m2)) := by
  have hmain : compute_challenge_bytes enc msg a b c
      = enc a ++ enc b ++ enc c ++ enc msg.m ++ enc msg.m1 ++ enc msg.m2 := by
    unfold compute_challenge_bytes message_put_bytes
    exact buffer_decomposition _ _ _ _ _ _ (hEnc a) (hEnc b) (hEnc c)
      (hEnc msg.m) (hEnc msg.m1) (hEnc msg.m2)
  have hassoc : compute_challenge_bytes enc msg a b c
      = enc a ++ (enc b ++ (enc c ++ (enc msg.m ++ (enc msg.m1
          ++ enc msg.m2)))) := by
    rw [hmain]; simp [List.append_assoc]
  refine ⟨hmain, ?_, ?_, ?_, ?_, ?_, ?_, ?_, ?_⟩
  · rw [hmain]
    simp [hEnc]
  · rw [List.drop_zero, hassoc, ← hEnc a, List.take_left]
  · rw [hassoc, drop33_of_append _ _ (hEnc a),
      take33_of_append _ _ (hEnc b)]
  · rw [show (66 : ℕ) = 33 + 33 by norm_num, ← List.drop_drop, hassoc,
      drop33_of_append _ _ (hEnc a), drop33_of_append _ _ (hEnc b),
      take33_of_append _ _ (hEnc c)]
  · rw [show (99 : ℕ) = 33 + 66 by norm_num, ← List.drop_drop,
      show (66 : ℕ) = 33 + 33 by norm_num, ← List.drop_drop, hassoc,
      drop33_of_append _ _ (hEnc a), drop33_of_append _ _ (hEnc b),
      drop33_of_append _ _ (hEnc c), take33_of_append _ _ (hEnc msg.m)]
  · rw [show (132 : ℕ) = 33 + 99 by norm_num, ← List.drop_drop,
      show (99 : ℕ) = 33 + 66 by norm_num, ← List.drop_drop,
      show (66 : ℕ) = 33 + 33 by norm_num, ← List.drop_drop, hassoc,
      drop33_of_append _ _ (hEnc a), drop33_of_append _ _ (hEnc b),
      drop33_of_append _ _ (hEnc c), drop33_of_append _ _ (hEnc msg.m),
      take33_of_append _ _ (hEnc msg.m1)]
  · rw [show (165 : ℕ) = 33 + 132 by norm_num, ← List.drop_drop,
      show (132 : ℕ) = 33 + 99 by norm_num, ← List.drop_drop,
      show (99 : ℕ) = 33 + 66 by norm_num, ← List.drop_drop,
      show (66 : ℕ) = 33 + 33 by norm_num, ← List.drop_drop, hassoc,
      drop33_of_append _ _ (hEnc a), drop33_of_append _ _ (hEnc b),
      drop33_of_append _ _ (hEnc c), drop33_of_append _ _ (hEnc msg.m),
      drop33_of_append _ _ (hEnc msg.m1), ← hEnc msg.m2]
    exact List.take_length _
  · unfold compute_challenge
    rw [hmain]

/-- Witness for C8 at a concrete encoding, hash, and inputs. -/
theorem c8_challenge_buffer_layout_witness :
    compute_challenge_bytes (fun _ => List.replicate 33 0) ⟨0, 0, 0⟩ 1 2 3
      = List.replicate 33 (0 : UInt8) ++ List.replicate 33 0
        ++ List.replicate 33 0 ++ List.replicate 33 0 ++ List.replicate 33 0
        ++ List.replicate 33 0 := by
  have h := c8_challenge_buffer_layout (fun l => l) (fun _ => 0)
    (fun _ => List.replicate 33 0)
    (fun _ => List.length_replicate 33 _) ⟨0, 0, 0⟩ 1 2 3
  exact h.1

/-- A `mapM` over `Option` whose function succeeds pointwise is the `some` of
the corresponding `map`. -/
theorem mapM_eq_map_of_forall_some {α β : Type _} (f : α → Option β)
    (g : α → β) (l : List α) (h : ∀ a ∈ l, f a = some (g a)) :
    l.mapM f = some (l.map g) := by
  induction l with
  | nil => rfl
  | cons a l ih =>
    rw [List.mapM_cons, h a (List.mem_cons_self a l),
      ih (fun x hx => h x (List.mem_cons_of_mem a hx))]
    rfl

/-- The commitment vector that `output_commitment_rzg` builds from nonempty
coefficient commitments: the identity followed by the constant terms. -/
def rzg_spec_commitment (coms : List SharingCommitment) : SharingCommitment :=
  gejInfinity :: coms.map (fun c => c.headD gejInfinity)

/-- C9: for every batch of coefficient-commitment vectors whose commitments
are all nonempty, `output_commitment_batch_rzg` returns for each slot a
commitment whose first entry is `Gej::infinity()`, whose length is one more
than the number of input coefficient commitments, and whose entry `i + 1` is
the constant term of the `i`-th input commitment. -/
theorem c9_rzg_output_commitment (batch : List (List SharingCommitment))
    (hne : ∀ coms ∈ batch, ∀ c ∈ coms, c ≠ []) :
    output_commitment_batch_rzg batch
        = some (batch.map rzg_spec_commitment) ∧
      ∀ coms ∈ batch,
        (rzg_spec_commitment coms).length = coms.length + 1 ∧
        (rzg_spec_commitment coms).head? = some gejInfinity ∧
        ∀ i : ℕ, i < coms.length →
          (rzg_spec_commitment coms)[i + 1]?
            = (coms[i]?).map (fun c => c.headD gejInfinity) := by
  constructor
  · unfold output_commitment_batch_rzg
    refine mapM_eq_map_of_forall_some _ _ _ (fun coms hcoms => ?_)
    unfold output_commitment_rzg rzg_spec_commitment
    rw [mapM_eq_map_of_forall_some List.head? (fun c => c.headD gejInfinity)
      coms (fun c hc => ?_)]
    · rfl
    · obtain ⟨x, cs, rfl⟩ := List.exists_cons_of_ne_nil (hne coms hcoms c hc)
      rfl
  · intro coms _
    refine ⟨by simp [rzg_spec_commitment], rfl, fun i hi => ?_⟩
    unfold rzg_spec_commitment
    rw [List.getElem?_cons_succ, List.getElem?_map]

/-- Witness for C9 at a concrete batch. -/
theorem c9_rzg_output_commitment_witness :
    output_commitment_batch_rzg [[[1, 2], [3]]]
      = some [[gejInfinity, 1, 3]] := by
  have h := c9_rzg_output_commitment [[[1, 2], [3]]] (by decide)
  rw [h.1]
  rfl

/-- The independently computed componentwise sum of a slot's verifiable
shares: the first pair's index with the summed values and decommitments. -/
def spec_sum_vshare (slot : List (VShare × SharingCommitment)) : VShare :=
  ⟨⟨(slot.head?.map (fun p => p.1.share.index)).getD 0,
      (slot.map (fun p => p.1.share.value)).sum⟩,
    (slot.map (fun p => p.1.decommitment)).sum⟩

/-- The independently computed componentwise sum of a slot's length-`k`
commitments: entry `j` is the sum of the `j`-th entries. -/
def spec_sum_commitment (k : ℕ) (slot : List (VShare × SharingCommitment)) :
    SharingCommitment :=
  (List.range k).map
    (fun j => (slot.map (fun p => p.2.getD j gejInfinity)).sum)

/-- Componentwise addition of a range-indexed vector with a length-`k`
vector. -/
theorem commitment_add_range (k : ℕ) (f : ℕ → Gej) (c : List Gej)
    (hc : c.length = k) :
    commitment_add ((List.range k).map f) c
      = (List.range k).map (fun j => f j + c.getD j gejInfinity) := by
  induction c generalizing k f with
  | nil =>
    subst hc
    rfl
  | cons x cs ih =>
    subst hc
    simp only [List.length_cons, List.range_succ_eq_map, List.map_cons,
      List.map_map]
    unfold commitment_add
    rw [List.zipWith_cons_cons]
    show _ :: commitment_add _ _ = _
    rw [ih cs.length (f ∘ Nat.succ) rfl]
    simp [Function.comp]

/-- A vector equals the range-indexed vector of its entries. -/
theorem eq_range_map_getD (c : List Gej) :
    c = (List.range c.length).map (fun j => c.getD j gejInfinity) := by
  refine List.ext_getElem (by simp) (fun i h1 h2 => ?_)
  simp [List.getD_eq_getElem?_getD, List.getElem?_eq_getElem, h1]

/-- The BRNG `sum_sharing` fold, computed against an accumulator whose
commitment is range-indexed. -/
theorem brng_foldl_sum (rest : List (VShare × SharingCommitment)) (k : ℕ)
    (hrest : ∀ p ∈ rest, p.2.length = k) (accV : VShare) (f : ℕ → Gej) :
    rest.foldl
        (fun acc p => (vshare_add acc.1 p.1, commitment_add acc.2 p.2))
        (accV, (List.range k).map f)
      = (⟨⟨accV.share.index,
            accV.share.value + (rest.map (fun p => p.1.share.value)).sum⟩,
          accV.decommitment + (rest.map (fun p => p.1.decommitment)).sum⟩,
        (List.range k).map
          (fun j => f j + (rest.map (fun p => p.2.getD j gejInfinity)).sum))
      := by
  induction rest generalizing accV f with
  | nil => simp
  | cons p rest ih =>
    simp only [List.foldl_cons]
    rw [commitment_add_range k f p.2 (hrest p (List.mem_cons_self p rest)),
      ih (fun q hq => hrest q (List.mem_cons_of_mem p hq))
        (vshare_add accV p.1) (fun j => f j + p.2.getD j gejInfinity)]
    simp [vshare_add, add_assoc]

/-- Function `sum_sharing` of a nonempty slot with length-`k` commitments is the
independently computed componentwise sum. -/
theorem sum_sharing_eq_spec (slot : List (VShare × SharingCommitment))
    (k : ℕ) (hne : slot ≠ []) (hk : ∀ p ∈ slot, p.2.length = k) :
    sum_sharing slot
      = some (spec_sum_vshare slot, spec_sum_commitment k slot) := by
  obtain ⟨p0, rest, rfl⟩ := List.exists_cons_of_ne_nil hne
  obtain ⟨v0, c0⟩ := p0
  have hc0 : c0 = (List.range k).map (fun j => c0.getD j gejInfinity) := by
    have h := eq_range_map_getD c0
    rwa [hk (v0, c0) (List.mem_cons_self _ _)] at h
  rw [show sum_sharing ((v0, c0) :: rest)
      = some (rest.foldl
        (fun acc p => (vshare_add acc.1 p.1, commitment_add acc.2 p.2))
        (v0, c0)) from rfl]
  have h1 : rest.foldl
      (fun acc p => (vshare_add acc.1 p.1, commitment_add acc.2 p.2))
      (v0, c0)
      = rest.foldl
        (fun acc p => (vshare_add acc.1 p.1, commitment_add acc.2 p.2))
        (v0, (List.range k).map (fun j => c0.getD j gejInfinity)) := by
    rw [← hc0]
  rw [h1, brng_foldl_sum rest k
    (fun q hq => hk q (List.mem_cons_of_mem _ hq)) v0
    (fun j => c0.getD j gejInfinity)]
  simp [spec_sum_vshare, spec_sum_commitment]

/-- C7: for every batch whose slots are nonempty lists of pairs with
length-`k` commitments, `output_sharing_batch` returns for each slot exactly
the pair of the fold of the additions, which equals the independently
computed componentwise sums; and those sums are invariant under permutation
of a slot's pairs. -/
theorem c7_brng_output_sums (batch : List (List (VShare × SharingCommitment)))
    (k : ℕ) (hne : ∀ slot ∈ batch, slot ≠ [])
    (hk : ∀ slot ∈ batch, ∀ p ∈ slot, p.2.length = k) :
    output_sharing_batch batch
        = some (batch.map spec_sum_vshare,
            batch.map (spec_sum_commitment k)) ∧
      ∀ slot slot₂ : List (VShare × SharingCommitment), slot₂.Perm slot →
        (slot₂.map (fun p => p.1.share.value)).sum
            = (slot.map (fun p => p.1.share.value)).sum ∧
          (slot₂.map (fun p => p.1.decommitment)).sum
            = (slot.map (fun p => p.1.decommitment)).sum ∧
          spec_sum_commitment k slot₂ = spec_sum_commitment k slot := by
  constructor
  · unfold output_sharing_batch
    rw [mapM_eq_map_of_forall_some sum_sharing
      (fun slot => (spec_sum_vshare slot, spec_sum_commitment k slot)) batch
      (fun slot hslot =>
        sum_sharing_eq_spec slot k (hne slot hslot) (hk slot hslot))]
    simp [List.unzip_eq_map, Function.comp]
  · intro slot slot₂ hperm
    refine ⟨((hperm.map _).sum_eq), ((hperm.map _).sum_eq), ?_⟩
    unfold spec_sum_commitment
    exact List.map_congr_left (fun j _ => (hperm.map _).sum_eq)

/-- Witness for C7 at a concrete two-contribution slot. -/
theorem c7_brng_output_sums_witness :
    output_sharing_batch [[(⟨⟨1, 2⟩, 3⟩, [4]), (⟨⟨9, 5⟩, 6⟩, [7])]]
      = some ([⟨⟨1, 7⟩, 9⟩], [[11]]) := by
  have h := c7_brng_output_sums
    [[(⟨⟨1, 2⟩, 3⟩, [4]), (⟨⟨9, 5⟩, 6⟩, [7])]] 1 (by decide) (by decide)
  rw [h.1]
  decide

/-- C10: OPEN's `handle_vshare_batch` is total for instances with a nonempty
commitment batch (batch size `B ≥ 1`): for any state whose buffer count
matches such an instance it returns a `(State, Result)` pair on arbitrary
vshare batches; but for the empty instance (`B = 0`) the call with the
matching empty vshare batch passes the batch-size and index-consistency
checks and then panics (modelled as `none`) by indexing slot 0 of the empty
batch. -/
theorem c10_open_totality :
    (∀ (interp : List VShare → Scalar × Scalar) (state : OpenState)
        (instParams : List SharingCommitment) (params : Parameters)
        (batch : List VShare),
      instParams ≠ [] →
      state.vshare_bufs.length = instParams.length →
      (handle_vshare_batch interp state instParams params batch).isSome
        = true) ∧
    (∀ (interp : List VShare → Scalar × Scalar) (params : Parameters),
      handle_vshare_batch interp (openStateNew []) [] params [] = none) := by
  constructor
  · intro interp state instParams params batch hne hlen
    obtain ⟨bufs⟩ := state
    unfold handle_vshare_batch
    dsimp only at hlen ⊢
    repeat' split
    all_goals try rfl
    all_goals exfalso
    all_goals try simp_all [accept_vshare_batch, List.length_eq_zero]
    all_goals exact hne (List.eq_nil_of_length_eq_zero (by omega))
  · intro interp params
    rfl

/-- Witness for C10's totality clause at a concrete instance and batch. -/
theorem c10_open_totality_witness :
    (handle_vshare_batch (fun _ => (0, 0)) ⟨[[]]⟩ [[0]] ⟨[5], 5, 0⟩
      [⟨⟨5, 0⟩, 0⟩]).isSome = true :=
  c10_open_totality.1 (fun _ => (0, 0)) ⟨[[]]⟩ [[0]] ⟨[5], 5, 0⟩
    [⟨⟨5, 0⟩, 0⟩] (by decide) (by decide)

/-- An OPEN handler call that returns an error returns the input state. -/
theorem open_error_preserves_state (interp : List VShare → Scalar × Scalar)
    (state : OpenState) (instParams : List SharingCommitment)
    (params : Parameters) (batch : List VShare) (st' : OpenState)
    (e : OpenError) :
    handle_vshare_batch interp state instParams params batch
      = some (st', .error e) → st' = state := by
  intro h
  unfold handle_vshare_batch at h
  dsimp only at h
  repeat' split at h
  all_goals simp_all

/-- A MULOPEN handler call that returns an error returns the input state. -/
theorem mulopen_error_preserves_state (challengeOf : ChallengeFun)
    (interp : List Share → Scalar) (state : List (List Share))
    (message_batch : List MulOpenMessage)
    (a_coms b_coms z_coms : List SharingCommitment) (h : Gej)
    (st' : List (List Share)) (e : MulOpenErr) :
    handle_message_batch challengeOf interp state message_batch a_coms b_coms
      z_coms h = some (st', .error e) → st' = state := by
  intro hh
  unfold handle_message_batch at hh
  dsimp only at hh
  by_cases h1 : message_batch.length = 0
  case pos => rw [if_pos h1] at hh; exact Option.noConfusion hh
  rw [if_neg h1] at hh
  by_cases h2 : a_coms.length = message_batch.length
  case neg => rw [if_pos h2] at hh; exact Option.noConfusion hh
  rw [if_neg (not_not_intro h2)] at hh
  by_cases h3 : b_coms.length = message_batch.length
  case neg => rw [if_pos h3] at hh; exact Option.noConfusion hh
  rw [if_neg (not_not_intro h3)] at hh
  by_cases h4 : z_coms.length = message_batch.length
  case neg => rw [if_pos h4] at hh; exact Option.noConfusion hh
  rw [if_neg (not_not_intro h4)] at hh
  by_cases h5 : state.length = message_batch.length
  case neg => rw [if_pos h5] at hh; exact Option.noConfusion hh
  rw [if_neg (not_not_intro h5)] at hh
  rcases a_coms with _ | ⟨ac0, acs⟩
  · exact Option.noConfusion hh
  dsimp only at hh
  by_cases h6 : ((ac0 :: acs).all fun com => decide (com.length = ac0.length))
      = true
  case neg => rw [if_pos h6] at hh; exact Option.noConfusion hh
  rw [if_neg (not_not_intro h6)] at hh
  by_cases h7 : (b_coms.all fun com => decide (com.length = ac0.length)) = true
  case neg => rw [if_pos h7] at hh; exact Option.noConfusion hh
  rw [if_neg (not_not_intro h7)] at hh
  by_cases h8 : (z_coms.all fun com => decide (com.length = ac0.length)) = true
  case neg => rw [if_pos h8] at hh; exact Option.noConfusion hh
  rw [if_neg (not_not_intro h8)] at hh
  rcases message_batch with _ | ⟨msg0, msgs⟩
  · exact Option.noConfusion hh
  dsimp only at hh
  by_cases h9 : ((msg0 :: msgs).any fun msg =>
      decide (msg.vshare.share.index ≠ msg0.vshare.share.index)) = true
  case pos =>
    rw [if_pos h9] at hh
    injection hh with hp
    exact (congrArg Prod.fst hp).symm
  rw [if_neg h9] at hh
  by_cases h10 : (((msg0 :: msgs).zip z_coms).all fun p =>
      decide (ped_commit h p.1.vshare.share.value p.1.vshare.decommitment
        = poly_eval_gej_slice_in_exponent p.2 msg0.vshare.share.index
          + p.1.commitment)) = true
  case neg =>
    rw [if_pos h10] at hh
    injection hh with hp
    exact (congrArg Prod.fst hp).symm
  rw [if_neg (not_not_intro h10)] at hh
  by_cases h11 : (((msg0 :: msgs).zip ((ac0 :: acs).zip b_coms)).all fun p =>
      verify challengeOf p.1.proof
        (poly_eval_gej_slice_in_exponent p.2.1 msg0.vshare.share.index)
        (poly_eval_gej_slice_in_exponent p.2.2 msg0.vshare.share.index)
        p.1.commitment h) = true
  case neg =>
    rw [if_pos h11] at hh
    injection hh with hp
    exact (congrArg Prod.fst hp).symm
  rw [if_neg (not_not_intro h11)] at hh
  rcases state with _ | ⟨buf0, bufs⟩
  · exact Option.noConfusion hh
  simp only [List.zipWith_cons_cons] at hh
  try dsimp only at hh
  by_cases h12 : (buf0 ++ [msg0.vshare.share]).length = 2 * ac0.length - 1
  case pos =>
    rw [if_pos h12] at hh
    injection hh with hp
    exact absurd (congrArg Prod.snd hp) (by simp)
  rw [if_neg h12] at hh
  injection hh with hp
  exact absurd (congrArg Prod.snd hp) (by simp)

/-- An RKPG `insert_batch` never succeeds on an empty batch. -/
theorem insert_batch_nil_not_ok (st : RKPGState) (st' : RKPGState) :
    insert_batch st [] ≠ some (.ok st') := by
  intro h
  unfold insert_batch at h
  repeat' split at h
  all_goals simp_all

/-- An RKPG `handle_share_batch` call that returns an error returns the input
state. -/
theorem rkpg_error_preserves_state
    (decode : List Share → ℕ → Option (List Scalar)) (st : RKPGState)
    (share_batch : List Share) (commitments : List SharingCommitment)
    (h : Gej) (st' : RKPGState) (e : RKPGError) :
    handle_share_batch decode st share_batch commitments h
      = some (st', .error e) → st' = st := by
  intro hh
  unfold handle_share_batch at hh
  dsimp only at hh
  repeat' split at hh
  all_goals try simp_all
  -- the lone remaining case: `commitments = []` after a successful insert,
  -- impossible because the batch must then be empty
  exfalso
  rename_i hins heq
  exact insert_batch_nil_not_ok _ _ hins

/-- C4: for every handler call (OPEN `handle_vshare_batch`, MULOPEN
`handle_message_batch`, RKPG `handle_share_batch`) that returns an error, the
state after the call equals the state before the call: the whole batch is
validated before any mutation. -/
theorem c4_errors_leave_state_unchanged :
    (∀ (interp : List VShare → Scalar × Scalar) (state : OpenState)
        (instParams : List SharingCommitment) (params : Parameters)
        (batch : List VShare) (st' : OpenState) (e : OpenError),
      handle_vshare_batch interp state instParams params batch
        = some (st', .error e) → st' = state) ∧
    (∀ (challengeOf : ChallengeFun) (interp : List Share → Scalar)
        (state : List (List Share)) (message_batch : List MulOpenMessage)
        (a_coms b_coms z_coms : List SharingCommitment) (h : Gej)
        (st' : List (List Share)) (e : MulOpenErr),
      handle_message_batch challengeOf interp state message_batch a_coms
        b_coms z_coms h = some (st', .error e) → st' = state) ∧
    (∀ (decode : List Share → ℕ → Option (List Scalar)) (st : RKPGState)
        (share_batch : List Share) (commitments : List SharingCommitment)
        (h : Gej) (st' : RKPGState) (e : RKPGError),
      handle_share_batch decode st share_batch commitments h
        = some (st', .error e) → st' = st) :=
  ⟨open_error_preserves_state, mulopen_error_preserves_state,
    rkpg_error_preserves_state⟩

/-- Witness for C4: one concrete error call per handler, with the unchanged
state extracted by the theorem. -/
theorem c4_errors_leave_state_unchanged_witness :
    ((⟨[[]]⟩ : OpenState) = ⟨[[]]⟩) ∧
      (([[], []] : List (List Share)) = [[], []]) ∧
      rkpgStateNew [5] 1 = rkpgStateNew [5] 1 :=
  ⟨c4_errors_leave_state_unchanged.1 (fun _ => (0, 0)) ⟨[[]]⟩ [[0]]
      ⟨[5], 5, 0⟩ [] ⟨[[]]⟩ .invalidBatchSize (by decide),
    c4_errors_leave_state_unchanged.2.1 (fun _ _ _ _ => 0) (fun _ => 0)
      [[], []]
      [⟨⟨⟨5, 0⟩, 0⟩, 0, ⟨⟨0, 0, 0⟩, ⟨0, 0, 0, 0, 0⟩⟩⟩,
        ⟨⟨⟨7, 0⟩, 0⟩, 0, ⟨⟨0, 0, 0⟩, ⟨0, 0, 0, 0, 0⟩⟩⟩]
      [[0], [0]] [[0], [0]] [[0], [0]] 0 [[], []] .inconsistentShares
      (by decide),
    c4_errors_leave_state_unchanged.2.2 (fun _ _ => none)
      (rkpgStateNew [5] 1) [⟨7, 0⟩] [[0]] 0 (rkpgStateNew [5] 1)
      .indexOutOfRange (by decide)⟩

/-- Case analysis of a non-panicking MULOPEN handler call: an error leaves
the state unchanged, and a success appends the batch to every buffer — also
past the threshold — answering `Some` exactly when slot 0's buffer length
then equals `2k - 1`. -/
theorem mulopen_some_cases (challengeOf : ChallengeFun)
    (interp : List Share → Scalar) (state : List (List Share))
    (message_batch : List MulOpenMessage)
    (a_coms b_coms z_coms : List SharingCommitment) (h : Gej)
    (st' : List (List Share))
    (r : Except MulOpenErr (Option (List Scalar))) :
    handle_message_batch challengeOf interp state message_batch a_coms b_coms
      z_coms h = some (st', r) →
    (st' = state ∧ ∃ e, r = .error e) ∨
    (st' = List.zipWith (fun buf msg => buf ++ [msg.vshare.share]) state
        message_batch ∧
      ∃ buf0 bufs msg0 msgs ac0 acs,
        state = buf0 :: bufs ∧ message_batch = msg0 :: msgs ∧
        a_coms = ac0 :: acs ∧
        (((buf0 ++ [msg0.vshare.share]).length = 2 * ac0.length - 1 ∧
            r = .ok (some ((List.zipWith
              (fun buf msg => buf ++ [msg.vshare.share]) state
              message_batch).map interp))) ∨
          ((buf0 ++ [msg0.vshare.share]).length ≠ 2 * ac0.length - 1 ∧
            r = .ok none))) := by
  intro hh
  unfold handle_message_batch at hh
  dsimp only at hh
  by_cases h1 : message_batch.length = 0
  case pos => rw [if_pos h1] at hh; exact Option.noConfusion hh
  rw [if_neg h1] at hh
  by_cases h2 : a_coms.length = message_batch.length
  case neg => rw [if_pos h2] at hh; exact Option.noConfusion hh
  rw [if_neg (not_not_intro h2)] at hh
  by_cases h3 : b_coms.length = message_batch.length
  case neg => rw [if_pos h3] at hh; exact Option.noConfusion hh
  rw [if_neg (not_not_intro h3)] at hh
  by_cases h4 : z_coms.length = message_batch.length
  case neg => rw [if_pos h4] at hh; exact Option.noConfusion hh
  rw [if_neg (not_not_intro h4)] at hh
  by_cases h5 : state.length = message_batch.length
  case neg => rw [if_pos h5] at hh; exact Option.noConfusion hh
  rw [if_neg (not_not_intro h5)] at hh
  rcases a_coms with _ | ⟨ac0, acs⟩
  · exact Option.noConfusion hh
  dsimp only at hh
  by_cases h6 : ((ac0 :: acs).all fun com => decide (com.length = ac0.length))
      = true
  case neg => rw [if_pos h6] at hh; exact Option.noConfusion hh
  rw [if_neg (not_not_intro h6)] at hh
  by_cases h7 : (b_coms.all fun com => decide (com.length = ac0.length)) = true
  case neg => rw [if_pos h7] at hh; exact Option.noConfusion hh
  rw [if_neg (not_not_intro h7)] at hh
  by_cases h8 : (z_coms.all fun com => decide (com.length = ac0.length)) = true
  case neg => rw [if_pos h8] at hh; exact Option.noConfusion hh
  rw [if_neg (not_not_intro h8)] at hh
  rcases message_batch with _ | ⟨msg0, msgs⟩
  · exact Option.noConfusion hh
  dsimp only at hh
  by_cases h9 : ((msg0 :: msgs).any fun msg =>
      decide (msg.vshare.share.index ≠ msg0.vshare.share.index)) = true
  case pos =>
    rw [if_pos h9] at hh
    injection hh with hp
    exact Or.inl ⟨(congrArg Prod.fst hp).symm, _,
      (congrArg Prod.snd hp).symm⟩
  rw [if_neg h9] at hh
  by_cases h10 : (((msg0 :: msgs).zip z_coms).all fun p =>
      decide (ped_commit h p.1.vshare.share.value p.1.vshare.decommitment
        = poly_eval_gej_slice_in_exponent p.2 msg0.vshare.share.index
          + p.1.commitment)) = true
  case neg =>
    rw [if_pos h10] at hh
    injection hh with hp
    exact Or.inl ⟨(congrArg Prod.fst hp).symm, _,
      (congrArg Prod.snd hp).symm⟩
  rw [if_neg (not_not_intro h10)] at hh
  by_cases h11 : (((msg0 :: msgs).zip ((ac0 :: acs).zip b_coms)).all fun p =>
      verify challengeOf p.1.proof
        (poly_eval_gej_slice_in_exponent p.2.1 msg0.vshare.share.index)
        (poly_eval_gej_slice_in_exponent p.2.2 msg0.vshare.share.index)
        p.1.commitment h) = true
  case neg =>
    rw [if_pos h11] at hh
    injection hh with hp
    exact Or.inl ⟨(congrArg Prod.fst hp).symm, _,
      (congrArg Prod.snd hp).symm⟩
  rw [if_neg (not_not_intro h11)] at hh
  rcases state with _ | ⟨buf0, bufs⟩
  · exact Option.noConfusion hh
  simp only [List.zipWith_cons_cons] at hh
  try dsimp only at hh
  refine Or.inr ?_
  by_cases h12 : (buf0 ++ [msg0.vshare.share]).length = 2 * ac0.length - 1
  case pos =>
    rw [if_pos h12] at hh
    injection hh with hp
    refine ⟨?_, buf0, bufs, msg0, msgs, ac0, acs, rfl, rfl, rfl,
      Or.inl ⟨h12, ?_⟩⟩
    · rw [List.zipWith_cons_cons]
      exact (congrArg Prod.fst hp).symm
    · rw [List.zipWith_cons_cons]
      exact (congrArg Prod.snd hp).symm
  rw [if_neg h12] at hh
  injection hh with hp
  refine ⟨?_, buf0, bufs, msg0, msgs, ac0, acs, rfl, rfl, rfl,
    Or.inr ⟨h12, (congrArg Prod.snd hp).symm⟩⟩
  rw [List.zipWith_cons_cons]
  exact (congrArg Prod.fst hp).symm

/-- A successful RKPG `insert_batch` advances the counter by exactly one,
with no regard to whether the batch's index had been received before. -/
theorem rkpg_insert_count (st : RKPGState) (batch : List Share)
    (st' : RKPGState) :
    insert_batch st batch = some (.ok st') → st'.count = st.count + 1 := by
  intro h
  unfold insert_batch at h
  dsimp only at h
  by_cases h1 : batch.length = st.bufs.length
  case neg =>
    rw [if_pos h1] at h
    injection h with hp
    exact Except.noConfusion hp
  rw [if_neg (not_not_intro h1)] at h
  rcases batch with _ | ⟨s0, rest⟩
  · injection h with hp
    exact Except.noConfusion hp
  dsimp only at h
  by_cases h2 : (rest.all fun s => decide (s.index = s0.index)) = true
  case neg =>
    rw [if_pos h2] at h
    injection h with hp
    exact Except.noConfusion hp
  rw [if_neg (not_not_intro h2)] at h
  rcases hidx : List.findIdx? (fun idx => decide (idx = s0.index)) st.indices
    with _ | i
  · rw [hidx] at h
    injection h with hp
    exact Except.noConfusion hp
  rw [hidx] at h
  dsimp only at h
  by_cases h3 : (st.bufs.all fun buf => decide (i < buf.length)) = true
  case neg =>
    rw [if_neg h3] at h
    exact Option.noConfusion h
  rw [if_pos h3] at h
  injection h with hp
  injection hp with hq
  rw [← hq]

/-- OPEN ignores calls on a terminal state: if slot 0's buffer has reached
the threshold, any returned state is the input state and any non-error
result is `Ok(None)`. -/
theorem open_terminal_no_mutation (interp : List VShare → Scalar × Scalar)
    (state : OpenState) (instParams : List SharingCommitment)
    (params : Parameters) (batch : List VShare) (buf0 : List VShare)
    (bufs : List (List VShare)) (com0 : SharingCommitment)
    (coms : List SharingCommitment) (st' : OpenState) (r : OpenResult)
    (hbufs : state.vshare_bufs = buf0 :: bufs)
    (hinst : instParams = com0 :: coms)
    (hterm : buf0.length = com0.length) :
    handle_vshare_batch interp state instParams params batch
      = some (st', r) →
    st' = state ∧ ∀ v, r = .ok v → v = none := by
  subst hinst
  obtain ⟨sb⟩ := state
  dsimp only at hbufs
  subst hbufs
  intro hh
  unfold handle_vshare_batch at hh
  dsimp only at hh
  repeat' split at hh
  all_goals try exact Option.noConfusion hh
  all_goals
    injection hh with hp
  all_goals
    refine ⟨(congrArg Prod.fst hp).symm, fun v hv => ?_⟩
  all_goals
    have hx : _ = Except.ok v := (congrArg Prod.snd hp).trans hv
  all_goals
    first
      | exact Except.noConfusion hx
      | (injection hx with hv1; exact hv1.symm)

/-- OPEN rejects a batch whose index was already accepted, leaving the state
unchanged. -/
theorem open_duplicate_rejected (interp : List VShare → Scalar × Scalar)
    (state : OpenState) (instParams : List SharingCommitment)
    (params : Parameters) (batch : List VShare) (v0 : VShare)
    (rest : List VShare) (buf0 : List VShare) (bufs : List (List VShare))
    (hbatch : batch = v0 :: rest) (hbufs : state.vshare_bufs = buf0 :: bufs)
    (hsize : batch.length = state.vshare_bufs.length)
    (hall : all_indices_equal_in_vshare_batch batch = true)
    (hmem : v0.share.index ∈ params.indices)
    (hdup : (buf0.any fun vs => decide (vs.share.index = v0.share.index))
      = true) :
    handle_vshare_batch interp state instParams params batch
      = some (state, .error .duplicateIndex) := by
  subst hbatch
  obtain ⟨sb⟩ := state
  dsimp only at hbufs
  subst hbufs
  dsimp only at hsize
  unfold handle_vshare_batch
  dsimp only
  rw [if_neg (not_not_intro hsize), if_neg (not_not_intro hall),
    if_neg (not_not_intro hmem), if_pos hdup]

/-- C1 counterexample: a MULOPEN state whose buffer already holds
`2k - 1 = 1` accepted share (`k = 1`) still accepts a further valid message
batch: the call returns `Ok(None)` but the buffer gains an entry, so the
state is not left unchanged. -/
theorem c1_counterexample :
    handle_message_batch (fun _ _ _ _ => 0) (fun _ => 0) [[⟨5, 0⟩]]
        [⟨⟨⟨7, 0⟩, 0⟩, 0, ⟨⟨0, 0, 0⟩, ⟨0, 0, 0, 0, 0⟩⟩⟩] [[0]] [[0]] [[0]] 0
      = some ([[⟨5, 0⟩, ⟨7, 0⟩]], .ok none) ∧
    ([[⟨5, 0⟩]] : List (List Share)).headD [] = [⟨5, 0⟩] ∧
    ([⟨5, 0⟩] : List Share).length = 2 * ([(0 : Gej)] : List Gej).length - 1 ∧
    ([[⟨5, 0⟩, ⟨7, 0⟩]] : List (List Share)) ≠ [[⟨5, 0⟩]] := by
  refine ⟨by decide, by decide, by decide, by decide⟩

/-- C1 (amended): once the terminal threshold is reached, OPEN's
`handle_vshare_batch` ignores further calls — any returned state equals the
input state and any non-error result is `Ok(None)` — but MULOPEN's
`handle_message_batch` keeps appending: every successful call appends the
batch to every buffer, also past the `2k - 1` threshold, and a successful
call made at or past the threshold returns `Ok(None)` while still mutating
the buffers. -/
theorem c1_amended_terminal_behavior :
    (∀ (interp : List VShare → Scalar × Scalar) (state : OpenState)
        (instParams : List SharingCommitment) (params : Parameters)
        (batch : List VShare) (buf0 : List VShare)
        (bufs : List (List VShare)) (com0 : SharingCommitment)
        (coms : List SharingCommitment) (st' : OpenState) (r : OpenResult),
      state.vshare_bufs = buf0 :: bufs → instParams = com0 :: coms →
      buf0.length = com0.length →
      handle_vshare_batch interp state instParams params batch
        = some (st', r) →
      st' = state ∧ ∀ v, r = .ok v → v = none) ∧
    (∀ (challengeOf : ChallengeFun) (interp : List Share → Scalar)
        (state : List (List Share)) (message_batch : List MulOpenMessage)
        (a_coms b_coms z_coms : List SharingCommitment) (h : Gej)
        (st' : List (List Share)) (v : Option (List Scalar)),
      handle_message_batch challengeOf interp state message_batch a_coms
        b_coms z_coms h = some (st', .ok v) →
      st' = List.zipWith (fun buf msg => buf ++ [msg.vshare.share]) state
        message_batch ∧
      (∀ (buf0 : List Share) (bufs : List (List Share))
          (ac0 : SharingCommitment) (acs : List SharingCommitment),
        state = buf0 :: bufs → a_coms = ac0 :: acs →
        2 * ac0.length - 1 ≤ buf0.length → v = none)) := by
  constructor
  · intro interp state instParams params batch buf0 bufs com0 coms st' r
      hbufs hinst hterm hh
    exact open_terminal_no_mutation interp state instParams params batch
      buf0 bufs com0 coms st' r hbufs hinst hterm hh
  · intro challengeOf interp state message_batch a_coms b_coms z_coms h st'
      v hh
    rcases mulopen_some_cases challengeOf interp state message_batch a_coms
        b_coms z_coms h st' (.ok v) hh with
      ⟨_, e, he⟩ | ⟨happ, buf0', bufs', msg0', msgs', ac0', acs', hs, _, ha,
        hcase⟩
    · exact Except.noConfusion he
    · refine ⟨happ, fun buf0 bufs ac0 acs hseq haeq hth => ?_⟩
      have hb : buf0 = buf0' := by
        have := hseq.symm.trans hs
        injection this
      have hac : ac0 = ac0' := by
        have := haeq.symm.trans ha
        injection this
      rcases hcase with ⟨hlen, _⟩ | ⟨_, hv⟩
      · exfalso
        rw [← hb, ← hac] at hlen
        simp [List.length_append] at hlen
        omega
      · injection hv

/-- Witness for C1's amended theorem: the OPEN clause at a concrete terminal
state, and the MULOPEN clause at a concrete successful call. -/
theorem c1_amended_terminal_behavior_witness :
    ((⟨[[⟨⟨5, 0⟩, 0⟩]]⟩ : OpenState) = ⟨[[⟨⟨5, 0⟩, 0⟩]]⟩ ∧
      ∀ v, (.ok none : OpenResult) = .ok v → v = none) ∧
    (([[⟨5, 0⟩, ⟨7, 0⟩]] : List (List Share))
        = List.zipWith
          (fun (buf : List Share) (msg : MulOpenMessage) =>
            buf ++ [msg.vshare.share]) [[⟨5, 0⟩]]
          [⟨⟨⟨7, 0⟩, 0⟩, 0, ⟨⟨0, 0, 0⟩, ⟨0, 0, 0, 0, 0⟩⟩⟩]) :=
  ⟨c1_amended_terminal_behavior.1 (fun _ => (0, 0)) ⟨[[⟨⟨5, 0⟩, 0⟩]]⟩ [[0]]
      ⟨[5, 9], 5, 0⟩ [⟨⟨9, 0⟩, 0⟩] [⟨⟨5, 0⟩, 0⟩] [] [0] [] ⟨[[⟨⟨5, 0⟩, 0⟩]]⟩
      (.ok none) rfl rfl (by decide) (by decide),
    (c1_amended_terminal_behavior.2 (fun _ _ _ _ => 0) (fun _ => 0)
      [[⟨5, 0⟩]] [⟨⟨⟨7, 0⟩, 0⟩, 0, ⟨⟨0, 0, 0⟩, ⟨0, 0, 0, 0, 0⟩⟩⟩] [[0]]
      [[0]] [[0]] 0 [[⟨5, 0⟩, ⟨7, 0⟩]] none (by decide)).1⟩

/-- C3 counterexample: MULOPEN accepts the same sender's valid message batch
twice — the buffer then stores two shares bearing index 7 — and RKPG's
counter reaches 2 after two accepted batches from the single index 5. -/
theorem c3_counterexample :
    handle_message_batch (fun _ _ _ _ => 0) (fun _ => 0) [[]]
        [⟨⟨⟨7, 0⟩, 0⟩, 0, ⟨⟨0, 0, 0⟩, ⟨0, 0, 0, 0, 0⟩⟩⟩] [[0, 0]] [[0, 0]]
        [[0, 0]] 0
      = some ([[⟨7, 0⟩]], .ok none) ∧
    handle_message_batch (fun _ _ _ _ => 0) (fun _ => 0) [[⟨7, 0⟩]]
        [⟨⟨⟨7, 0⟩, 0⟩, 0, ⟨⟨0, 0, 0⟩, ⟨0, 0, 0, 0, 0⟩⟩⟩] [[0, 0]] [[0, 0]]
        [[0, 0]] 0
      = some ([[⟨7, 0⟩, ⟨7, 0⟩]], .ok none) ∧
    ([⟨7, 0⟩, ⟨7, 0⟩] : List Share).map Share.index = [7, 7] ∧
    insert_batch (rkpgStateNew [5, 9] 1) [⟨5, 3⟩]
      = some (.ok ⟨[5, 9], [[⟨5, 3⟩, ⟨9, 0⟩]], 1⟩) ∧
    insert_batch ⟨[5, 9], [[⟨5, 3⟩, ⟨9, 0⟩]], 1⟩ [⟨5, 4⟩]
      = some (.ok ⟨[5, 9], [[⟨5, 4⟩, ⟨9, 0⟩]], 2⟩) := by
  refine ⟨by decide, by decide, by decide, by decide, by decide⟩

/-- C3 (amended): only OPEN enforces the no-double-accept rule, rejecting a
batch from an already-seen index with `DuplicateIndex` and an unchanged
state; MULOPEN performs no duplicate check and appends every valid batch —
repeated indices included — to its buffers; and RKPG's `count` counts
accepted batches, advancing by one on every successful `insert_batch` even
when the index was already received (a repeat merely overwrites the slot). -/
theorem c3_amended_duplicate_handling :
    (∀ (interp : List VShare → Scalar × Scalar) (state : OpenState)
        (instParams : List SharingCommitment) (params : Parameters)
        (batch : List VShare) (v0 : VShare) (rest : List VShare)
        (buf0 : List VShare) (bufs : List (List VShare)),
      batch = v0 :: rest → state.vshare_bufs = buf0 :: bufs →
      batch.length = state.vshare_bufs.length →
      all_indices_equal_in_vshare_batch batch = true →
      v0.share.index ∈ params.indices →
      (buf0.any fun vs => decide (vs.share.index = v0.share.index)) = true →
      handle_vshare_batch interp state instParams params batch
        = some (state, .error .duplicateIndex)) ∧
    (∀ (challengeOf : ChallengeFun) (interp : List Share → Scalar)
        (state : List (List Share)) (message_batch : List MulOpenMessage)
        (a_coms b_coms z_coms : List SharingCommitment) (h : Gej)
        (st' : List (List Share)) (v : Option (List Scalar)),
      handle_message_batch challengeOf interp state message_batch a_coms
        b_coms z_coms h = some (st', .ok v) →
      st' = List.zipWith (fun buf msg => buf ++ [msg.vshare.share]) state
        message_batch) ∧
    (∀ (st : RKPGState) (batch : List Share) (st' : RKPGState),
      insert_batch st batch = some (.ok st') →
      st'.count = st.count + 1) := by
  refine ⟨open_duplicate_rejected, ?_, rkpg_insert_count⟩
  intro challengeOf interp state message_batch a_coms b_coms z_coms h st' v
    hh
  rcases mulopen_some_cases challengeOf interp state message_batch a_coms
      b_coms z_coms h st' (.ok v) hh with ⟨_, e, he⟩ | ⟨happ, _⟩
  · exact Except.noConfusion he
  · exact happ

/-- Witness for C3's amended theorem at concrete inputs. -/
theorem c3_amended_duplicate_handling_witness :
    handle_vshare_batch (fun _ => (0, 0)) ⟨[[⟨⟨5, 0⟩, 0⟩]]⟩ [[0]]
        ⟨[5, 9], 5, 0⟩ [⟨⟨5, 1⟩, 0⟩]
      = some (⟨[[⟨⟨5, 0⟩, 0⟩]]⟩, .error .duplicateIndex) ∧
    ([[⟨7, 0⟩, ⟨7, 0⟩]] : List (List Share))
      = List.zipWith
        (fun (buf : List Share) (msg : MulOpenMessage) =>
          buf ++ [msg.vshare.share]) [[⟨7, 0⟩]]
        [⟨⟨⟨7, 0⟩, 0⟩, 0, ⟨⟨0, 0, 0⟩, ⟨0, 0, 0, 0, 0⟩⟩⟩] ∧
    (⟨[5, 9], [[⟨5, 4⟩, ⟨9, 0⟩]], 2⟩ : RKPGState).count
      = (⟨[5, 9], [[⟨5, 3⟩, ⟨9, 0⟩]], 1⟩ : RKPGState).count + 1 :=
  ⟨c3_amended_duplicate_handling.1 (fun _ => (0, 0)) ⟨[[⟨⟨5, 0⟩, 0⟩]]⟩ [[0]]
      ⟨[5, 9], 5, 0⟩ [⟨⟨5, 1⟩, 0⟩] ⟨⟨5, 1⟩, 0⟩ [] [⟨⟨5, 0⟩, 0⟩] [] rfl rfl
      (by decide) (by decide) (by decide) (by decide),
    c3_amended_duplicate_handling.2.1 (fun _ _ _ _ => 0) (fun _ => 0)
      [[⟨7, 0⟩]] [⟨⟨⟨7, 0⟩, 0⟩, 0, ⟨⟨0, 0, 0⟩, ⟨0, 0, 0, 0, 0⟩⟩⟩] [[0, 0]]
      [[0, 0]] [[0, 0]] 0 [[⟨7, 0⟩, ⟨7, 0⟩]] none (by decide),
    c3_amended_duplicate_handling.2.2 ⟨[5, 9], [[⟨5, 3⟩, ⟨9, 0⟩]], 1⟩
      [⟨5, 4⟩] ⟨[5, 9], [[⟨5, 4⟩, ⟨9, 0⟩]], 2⟩ (by decide)⟩

/-- The OPEN handler as the claim describes it: the five checks in order,
then an unconditional append, answering `Ok(Some _)` exactly when slot 0's
buffer then holds `k` shares.  (For an empty batch the index checks are
unreachable behind the batch-size check.) -/
def open_handler_claim_spec (interp : List VShare → Scalar × Scalar)
    (state : OpenState) (instParams : List SharingCommitment)
    (params : Parameters) (batch : List VShare) : OpenState × OpenResult :=
  if batch.length ≠ state.vshare_bufs.length then
    (state, .error .invalidBatchSize)
  else if ¬ all_indices_equal_in_vshare_batch batch then
    (state, .error .inconsistentIndices)
  else if (batch.headD ⟨⟨0, 0⟩, 0⟩).share.index ∉ params.indices then
    (state, .error .invalidIndex)
  else if (state.vshare_bufs.headD []).any (fun vs =>
      decide (vs.share.index = (batch.headD ⟨⟨0, 0⟩, 0⟩).share.index)) then
    (state, .error .duplicateIndex)
  else if ¬ ((batch.zip instParams).all
      (fun p => vshare_is_valid p.1 p.2 params.h)) then
    (state, .error .invalidShare)
  else
    let st' := accept_vshare_batch state batch
    if (st'.vshare_bufs.headD []).length = (instParams.headD []).length then
      (st', .ok (some (reconstruct_values interp st')))
    else (st', .ok none)

/-- C2 counterexample: on a terminal OPEN state (slot 0's buffer already
holds `k = 1` shares) a fresh batch passes all five checks, yet the handler
returns `Ok(None)` with the state unchanged instead of appending the batch
as the claim stipulates. -/
theorem c2_counterexample :
    handle_vshare_batch (fun _ => (0, 0)) ⟨[[⟨⟨5, 0⟩, 0⟩]]⟩ [[0]]
        ⟨[5, 9], 5, 0⟩ [⟨⟨9, 0⟩, 0⟩]
      = some (⟨[[⟨⟨5, 0⟩, 0⟩]]⟩, .ok none) ∧
    ([⟨⟨9, 0⟩, 0⟩] : List VShare).length = 1 ∧
    all_indices_equal_in_vshare_batch [⟨⟨9, 0⟩, 0⟩] = true ∧
    ((9 : Scalar) ∈ [(5 : Scalar), 9]) ∧
    (([⟨⟨5, 0⟩, 0⟩] : List VShare).any fun vs =>
      decide (vs.share.index = 9)) = false ∧
    (([⟨⟨9, 0⟩, 0⟩].zip [[(0 : Gej)]]).all fun p =>
      vshare_is_valid p.1 p.2 0) = true ∧
    (⟨[[⟨⟨5, 0⟩, 0⟩]]⟩ : OpenState)
      ≠ accept_vshare_batch ⟨[[⟨⟨5, 0⟩, 0⟩]]⟩ [⟨⟨9, 0⟩, 0⟩] := by
  refine ⟨by decide, by decide, by decide, by decide, by decide, by decide,
    by decide⟩

/-- C2 (amended): for every OPEN state that has not yet reached its
threshold (slot 0's buffer shorter than the commitment length `k`),
`handle_vshare_batch` computes exactly the claim's cascade: the five checks
in the stated order, then the append, returning `Ok(Some v)` with
`v[j] = interpolate_shares_at_zero(buffers[j])` exactly when the buffers
then hold `k` shares and `Ok(None)` otherwise.  (On a terminal state the
handler instead returns `Ok(None)` without appending, see the
counterexample.) -/
theorem c2_amended_validation_cascade
    (interp : List VShare → Scalar × Scalar) (state : OpenState)
    (instParams : List SharingCommitment) (params : Parameters)
    (batch : List VShare) (buf0 : List VShare) (bufs : List (List VShare))
    (com0 : SharingCommitment) (coms : List SharingCommitment)
    (hbufs : state.vshare_bufs = buf0 :: bufs)
    (hinst : instParams = com0 :: coms)
    (hlt : buf0.length < com0.length) :
    handle_vshare_batch interp state instParams params batch
      = some (open_handler_claim_spec interp state instParams params batch)
      := by
  subst hinst
  obtain ⟨sb⟩ := state
  dsimp only at hbufs
  subst hbufs
  rcases batch with _ | ⟨v0, rest⟩
  · unfold handle_vshare_batch open_handler_claim_spec
    dsimp only
    rw [if_pos (by simp : ([] : List VShare).length ≠ (buf0 :: bufs).length),
      if_pos (by simp : ([] : List VShare).length ≠ (buf0 :: bufs).length)]
  · unfold handle_vshare_batch open_handler_claim_spec accept_vshare_batch
    dsimp only
    simp only [List.zipWith_cons_cons, List.headD_cons]
    split_ifs with hc1 hc2 hc3 hc4 hc5 hc6 hc7 <;> first
      | rfl
      | omega

/-- Witness for C2's amended theorem at a concrete below-threshold state. -/
theorem c2_amended_validation_cascade_witness :
    handle_vshare_batch (fun _ => (0, 0)) ⟨[[]]⟩ [[0]] ⟨[5, 9], 5, 0⟩
        [⟨⟨5, 0⟩, 0⟩]
      = some (open_handler_claim_spec (fun _ => (0, 0)) ⟨[[]]⟩ [[0]]
          ⟨[5, 9], 5, 0⟩ [⟨⟨5, 0⟩, 0⟩]) :=
  c2_amended_validation_cascade (fun _ => (0, 0)) ⟨[[]]⟩ [[0]] ⟨[5, 9], 5, 0⟩
    [⟨⟨5, 0⟩, 0⟩] [] [] [0] [] rfl rfl (by decide)

/-- The structural verdict of one BRNG batch slot: the first failing of the
three structural checks, in the order contribution count, commitment
lengths, share indices. -/
def slot_structural_error (k : ℕ) (params : Parameters)
    (slot : List (VShare × SharingCommitment)) : Option BRNGError :=
  if slot.length ≠ k then some .wrongNumberOfContributions
  else if ¬ (slot.all fun p => decide (p.2.length = k)) then
    some .invalidCommitments
  else if ¬ (slot.all fun p => decide (p.1.share.index = params.index)) then
    some .wrongIndex
  else none

/-- BRNG `is_valid` as amended: the error is the first slot's first failing
structural check (slot-major, not kind-major); `InvalidShare` only when every
slot passes all structural checks; `Ok` exactly when nothing fails. -/
def brng_is_valid_spec (k : ℕ) (params : Parameters)
    (batch : List (List (VShare × SharingCommitment))) :
    Except BRNGError Unit :=
  match batch.findSome? (slot_structural_error k params) with
  | some e => .error e
  | none =>
    if batch.all (fun slot => slot.all fun p =>
        vshare_is_valid p.1 p.2 params.h) then .ok ()
    else .error .invalidShare

/-- One step of the first BRNG loop, phrased through the slot verdict. -/
theorem brng_structural_check_cons (k : ℕ) (params : Parameters)
    (slot : List (VShare × SharingCommitment))
    (rest : List (List (VShare × SharingCommitment))) :
    brng_structural_check k params (slot :: rest)
      = match slot_structural_error k params slot with
        | some e => .error e
        | none => brng_structural_check k params rest := by
  show (if slot.length ≠ k then
        (.error .wrongNumberOfContributions : Except BRNGError Unit)
      else if ¬ (slot.all fun p => decide (p.2.length = k)) then
        .error .invalidCommitments
      else if ¬ (slot.all fun p => decide (p.1.share.index = params.index))
          then .error .wrongIndex
      else brng_structural_check k params rest)
    = match slot_structural_error k params slot with
      | some e => .error e
      | none => brng_structural_check k params rest
  unfold slot_structural_error
  split_ifs <;> rfl

/-- The first BRNG loop is the first structural verdict over the slots in
batch order. -/
theorem brng_structural_check_eq_findSome (k : ℕ) (params : Parameters)
    (batch : List (List (VShare × SharingCommitment))) :
    brng_structural_check k params batch
      = match batch.findSome? (slot_structural_error k params) with
        | some e => .error e
        | none => .ok () := by
  induction batch with
  | nil => rfl
  | cons slot rest ih =>
    rw [brng_structural_check_cons, List.findSome?_cons]
    rcases slot_structural_error k params slot with _ | e
    · exact ih
    · rfl

/-- The second BRNG loop answers `Ok` exactly when every pair of every slot
is a valid verifiable share. -/
theorem brng_share_check_eq (params : Parameters)
    (batch : List (List (VShare × SharingCommitment))) :
    brng_share_check params batch
      = if batch.all (fun slot => slot.all fun p =>
          vshare_is_valid p.1 p.2 params.h) then .ok ()
        else .error .invalidShare := by
  induction batch with
  | nil => rfl
  | cons slot rest ih =>
    show (if ¬ (slot.all fun p => vshare_is_valid p.1 p.2 params.h) then
        (.error .invalidShare : Except BRNGError Unit)
      else brng_share_check params rest) = _
    rw [List.all_cons]
    by_cases hs : (slot.all fun p => vshare_is_valid p.1 p.2 params.h) = true
    · rw [if_neg (not_not_intro hs), ih, hs, Bool.true_and]
    · rw [if_pos hs]
      have hfalse : (slot.all fun p => vshare_is_valid p.1 p.2 params.h)
          = false := by
        cases hb : slot.all fun p => vshare_is_valid p.1 p.2 params.h
        · rfl
        · exact absurd hb hs
      rw [hfalse, Bool.false_and, if_neg (by simp)]

/-- A slot passes the structural checks exactly when it has `k` pairs, all
its commitments have length `k`, and all its shares bear the party's
index. -/
theorem slot_structural_error_eq_none (k : ℕ) (params : Parameters)
    (slot : List (VShare × SharingCommitment)) :
    slot_structural_error k params slot = none ↔
      slot.length = k ∧ (∀ p ∈ slot, p.2.length = k) ∧
        ∀ p ∈ slot, p.1.share.index = params.index := by
  unfold slot_structural_error
  split_ifs with h1 h2 h3
  all_goals simp_all
  exact ⟨h2, h3⟩

/-- C6 counterexample: with `k = 1`, a batch whose slot 0 carries a wrong
index and whose slot 1 has zero contributions is rejected with `WrongIndex`,
although `WrongNumberOfContributions` — the earliest kind in the claim's
order — also holds (of slot 1). -/
theorem c6_counterexample :
    brng_is_valid 1 ⟨[5, 9], 5, 0⟩ [[(⟨⟨9, 0⟩, 0⟩, [0])], []]
      = .error .wrongIndex ∧
    ([] : List (VShare × SharingCommitment)).length ≠ 1 := by
  refine ⟨by decide, by decide⟩

/-- C6 (amended): BRNG's `is_valid` fails under precisely the four error
kinds, but the three structural kinds are prioritised slot-major: the
returned error is the first slot's first failing structural check in batch
order, `InvalidShare` is returned only when every slot passes all structural
checks, and `Ok(())` is returned if and only if none of the four conditions
holds. -/
theorem c6_amended_brng_validation (k : ℕ) (params : Parameters)
    (batch : List (List (VShare × SharingCommitment))) :
    brng_is_valid k params batch = brng_is_valid_spec k params batch ∧
    (brng_is_valid k params batch = .ok () ↔
      ∀ slot ∈ batch, slot.length = k ∧
        ∀ p ∈ slot, p.2.length = k ∧ p.1.share.index = params.index ∧
          vshare_is_valid p.1 p.2 params.h = true) := by
  have heq : brng_is_valid k params batch = brng_is_valid_spec k params batch
      := by
    unfold brng_is_valid brng_is_valid_spec
    rw [brng_structural_check_eq_findSome, brng_share_check_eq]
    rcases batch.findSome? (slot_structural_error k params) with _ | e
    · rfl
    · rfl
  refine ⟨heq, ?_⟩
  rw [heq]
  unfold brng_is_valid_spec
  rcases hfs : batch.findSome? (slot_structural_error k params) with _ | e
  · rw [List.findSome?_eq_none_iff] at hfs
    by_cases hs : (batch.all fun slot => slot.all fun p =>
        vshare_is_valid p.1 p.2 params.h) = true
    · rw [if_pos hs]
      simp only [List.all_eq_true] at hs
      constructor
      · intro _ slot hslot
        obtain ⟨hlen, hcom, hidx⟩ :=
          (slot_structural_error_eq_none k params slot).mp (hfs slot hslot)
        exact ⟨hlen, fun p hp =>
          ⟨hcom p hp, hidx p hp, hs slot hslot p hp⟩⟩
      · intro _
        rfl
    · rw [if_neg hs]
      constructor
      · intro hcon
        exact absurd hcon (by simp)
      · intro hall
        exfalso
        apply hs
        rw [List.all_eq_true]
        intro slot hslot
        rw [List.all_eq_true]
        intro p hp
        exact ((hall slot hslot).2 p hp).2.2
  · constructor
    · intro hcon
      exact absurd hcon (by simp)
    · intro hall
      exfalso
      have hmem := List.exists_of_findSome?_eq_some hfs
      obtain ⟨slot, hslot, hsome⟩ := hmem
      have : slot_structural_error k params slot = none := by
        refine (slot_structural_error_eq_none k params slot).mpr ?_
        obtain ⟨hlen, hrest⟩ := hall slot hslot
        exact ⟨hlen, fun p hp => (hrest p hp).1,
          fun p hp => (hrest p hp).2.1⟩
      rw [this] at hsome
      exact Option.noConfusion hsome

end MpcRs
